import Mathlib

/-
Verification development for the AutoDocGen backend (FastAPI + MongoDB).

The MongoDB collections are embedded as Lean lists of rows, in natural
(insertion) order.  A Mongo `update_one(filter, set, upsert=True)` call
updates the first row matching the filter, or appends a fresh row when no
row matches; `find_one(filter)` returns the first matching row; `find(filter)`
returns every matching row in order.  External provider (Trello) HTTP calls
are embedded as environment data passed to the functions that perform them;
where a theorem depends on a call succeeding, the call is modelled as
succeeding and the modelling is noted on the definition.
-/

set_option maxRecDepth 4000

/-- Update the first element satisfying p by f, leaving the rest unchanged:
the effect of a Mongo update_one set on the collection when a match exists. -/
def updFirstBy {α : Type} (p : α → Bool) (f : α → α) : List α → List α
  | [] => []
  | x :: xs => if p x then f x :: xs else x :: updFirstBy p f xs

/-- Mongo update_one with upsert=True: update the first match by f, or append
the fresh row nw when nothing matches. -/
def upsertBy {α : Type} (p : α → Bool) (f : α → α) (nw : α) (l : List α) : List α :=
  if l.any p then updFirstBy p f l else l ++ [nw]

/-- Mongo find_one: the first element satisfying p, if any. -/
def findFirst {α : Type} (p : α → Bool) : List α → Option α
  | [] => none
  | x :: xs => if p x then some x else findFirst p xs

theorem findFirst_append {α : Type} (p : α → Bool) (l1 l2 : List α) :
    findFirst p (l1 ++ l2) =
      match findFirst p l1 with
      | some x => some x
      | none => findFirst p l2 := by
  induction l1 with
  | nil => rfl
  | cons x xs ih =>
    by_cases h : p x
    · simp [findFirst, h]
    · simp [findFirst, h, ih]

/-- Row of the board_user_map collection (the Mapping Store).  board_desc is
set by the save_token path only, hence optional. -/
structure BoardRow where
  board_id : String
  user_id : String
  board_name : String
  board_desc : Option String
deriving DecidableEq, Repr

/-- Filter selecting the rows of a given board key. -/
def keyIs (bid : String) : BoardRow → Bool := fun r => r.board_id == bid

def hasKey (k : String) (m : List BoardRow) : Bool := m.any (keyIs k)

def keysOf (m : List BoardRow) : List String := m.map (fun r => r.board_id)

/-- Rows of the Mapping Store holding board k (Mongo find on board_id). -/
def rowsFor (k : String) (m : List BoardRow) : List BoardRow := m.filter (keyIs k)

/-- Invariant of the Mapping Store: at most one row per board_id. -/
def oneRowPerBoard (m : List BoardRow) : Prop := (keysOf m).Nodup

instance (m : List BoardRow) : Decidable (oneRowPerBoard m) :=
  inferInstanceAs (Decidable (keysOf m).Nodup)

/-- Field update performed by the startup sweep upsert, app/main.py lines
154-158: set user_id and board_name (board_desc is not touched). -/
def setStartup (uid name : String) (r : BoardRow) : BoardRow :=
  { r with user_id := uid, board_name := name }

/-- Field update performed by the save_token upsert, app/main.py lines
254-262: set user_id, board_name and board_desc. -/
def setSave (uid name desc : String) (r : BoardRow) : BoardRow :=
  { r with user_id := uid, board_name := name, board_desc := some desc }

/-- Mapping Store upsert of the startup sweep (app/main.py lines 154-158). -/
def upsertBoardStartup (m : List BoardRow) (bid uid name : String) : List BoardRow :=
  upsertBy (keyIs bid) (setStartup uid name) ⟨bid, uid, name, none⟩ m

/-- Mapping Store upsert of the save_token endpoint (app/main.py lines
254-262). -/
def upsertBoardSave (m : List BoardRow) (bid uid name desc : String) : List BoardRow :=
  upsertBy (keyIs bid) (setSave uid name desc) ⟨bid, uid, name, some desc⟩ m

theorem keyIs_iff (bid : String) (r : BoardRow) : keyIs bid r = true ↔ r.board_id = bid := by
  simp [keyIs]

theorem hasKey_iff (k : String) (m : List BoardRow) :
    hasKey k m = true ↔ k ∈ keysOf m := by
  simp only [hasKey, keysOf, List.any_eq_true, keyIs, beq_iff_eq, List.mem_map]

theorem keysOf_updFirstBy (k : String) (f : BoardRow → BoardRow)
    (hf : ∀ r, (f r).board_id = r.board_id) (m : List BoardRow) :
    keysOf (updFirstBy (keyIs k) f m) = keysOf m := by
  induction m with
  | nil => rfl
  | cons r rs ih =>
    by_cases h : keyIs k r
    · simp [updFirstBy, h, keysOf, hf]
    · simp only [updFirstBy, h, if_neg, Bool.false_eq_true, ite_false]
      simp [keysOf] at ih ⊢
      exact ih

theorem keysOf_append_one (m : List BoardRow) (r : BoardRow) :
    keysOf (m ++ [r]) = keysOf m ++ [r.board_id] := by
  simp [keysOf]

theorem oneRowPerBoard_upsertBy (k : String) (f : BoardRow → BoardRow) (nw : BoardRow)
    (hf : ∀ r, (f r).board_id = r.board_id) (hk : nw.board_id = k)
    (m : List BoardRow) (hm : oneRowPerBoard m) :
    oneRowPerBoard (upsertBy (keyIs k) f nw m) := by
  unfold upsertBy
  by_cases h : m.any (keyIs k)
  · simpa [h, oneRowPerBoard, keysOf_updFirstBy k f hf] using hm
  · have hnot : k ∉ keysOf m := fun hmem => h ((hasKey_iff k m).2 hmem)
    simp only [h, Bool.false_eq_true, ite_false]
    unfold oneRowPerBoard
    rw [keysOf_append_one, hk]
    simp only [List.nodup_append, List.nodup_cons, List.not_mem_nil, not_false_iff,
      List.nodup_nil, and_true, true_and, List.disjoint_singleton]
    exact ⟨hm, hnot⟩

theorem rowsFor_eq_nil (k : String) (m : List BoardRow) (h : hasKey k m = false) :
    rowsFor k m = [] := by
  unfold rowsFor
  rw [List.filter_eq_nil_iff]
  intro r hr hp
  have : hasKey k m = true := by
    simp only [hasKey, List.any_eq_true]; exact ⟨r, hr, hp⟩
  rw [this] at h; exact Bool.noConfusion h

theorem nodup_head_tail (r : BoardRow) (rs : List BoardRow)
    (hm : oneRowPerBoard (r :: rs)) :
    r.board_id ∉ keysOf rs ∧ oneRowPerBoard rs := by
  unfold oneRowPerBoard keysOf at hm ⊢
  simp only [List.map_cons, List.nodup_cons] at hm
  exact hm

theorem rowsFor_updFirstBy_total (k : String) (f : BoardRow → BoardRow) (nw : BoardRow)
    (hf : ∀ r, (f r).board_id = r.board_id)
    (hfix : ∀ r, r.board_id = k → f r = nw) :
    ∀ m : List BoardRow, oneRowPerBoard m → hasKey k m = true →
      rowsFor k (updFirstBy (keyIs k) f m) = [nw] := by
  intro m
  induction m with
  | nil => intro _ h; exact absurd h (by simp [hasKey])
  | cons r rs ih =>
    intro hm hhk
    obtain ⟨hhead, hm'⟩ := nodup_head_tail r rs hm
    by_cases h : keyIs k r = true
    · have hr : r.board_id = k := (keyIs_iff k r).1 h
      have hnotin : k ∉ keysOf rs := hr ▸ hhead
      have hrs : hasKey k rs = false := by
        cases hr2 : hasKey k rs
        · rfl
        · exact absurd ((hasKey_iff k rs).1 hr2) hnotin
      have hnil : List.filter (keyIs k) rs = [] := rowsFor_eq_nil k rs hrs
      have hfr : keyIs k (f r) = true := by
        rw [keyIs_iff, hf]; exact hr
      simp only [updFirstBy, h, ite_true]
      unfold rowsFor
      rw [List.filter_cons, if_pos hfr, hnil, hfix r hr]
    · have hfalse : keyIs k r = false := by simpa using h
      have hrs : hasKey k rs = true := by
        simpa [hasKey, List.any_cons, hfalse] using hhk
      simp only [updFirstBy, hfalse, Bool.false_eq_true, ite_false]
      unfold rowsFor
      rw [List.filter_cons, if_neg (by simp [hfalse])]
      exact ih hm' hrs

theorem rowsFor_upsertBy_total (k : String) (f : BoardRow → BoardRow) (nw : BoardRow)
    (hf : ∀ r, (f r).board_id = r.board_id) (hk : nw.board_id = k)
    (hfix : ∀ r, r.board_id = k → f r = nw)
    (m : List BoardRow) (hm : oneRowPerBoard m) :
    rowsFor k (upsertBy (keyIs k) f nw m) = [nw] := by
  unfold upsertBy
  by_cases h : m.any (keyIs k)
  · simp only [h, ite_true]
    exact rowsFor_updFirstBy_total k f nw hf hfix m hm h
  · simp only [h, Bool.false_eq_true, ite_false]
    unfold rowsFor
    rw [List.filter_append]
    have h1 : rowsFor k m = [] := rowsFor_eq_nil k m (by simpa [hasKey] using h)
    unfold rowsFor at h1
    rw [h1]
    simp [List.filter, (keyIs_iff k nw).2 hk]

theorem setSave_board_id (uid name desc : String) (r : BoardRow) :
    (setSave uid name desc r).board_id = r.board_id := rfl

theorem setStartup_board_id (uid name : String) (r : BoardRow) :
    (setStartup uid name r).board_id = r.board_id := rfl

theorem setSave_fix (B uid name desc : String) (r : BoardRow) (h : r.board_id = B) :
    setSave uid name desc r = ⟨B, uid, name, some desc⟩ := by
  cases r
  simp only [setSave]
  simp_all

/-- C4: the Mapping Store keeps at most one row per board_id with
last-writer-wins semantics.  Upserting board B for owner U1 and then for
owner U2 (the save_token upsert of app/main.py lines 254-262) leaves exactly
one row for B, owned by U2; both write operations on the Mapping Store (the
save_token upsert and the startup-sweep upsert of lines 154-158) preserve the
at-most-one-row-per-board invariant. -/
theorem mapping_upsert_last_writer_wins
    (m : List BoardRow) (B U1 U2 n1 d1 n2 d2 : String)
    (hm : oneRowPerBoard m) :
    rowsFor B (upsertBoardSave (upsertBoardSave m B U1 n1 d1) B U2 n2 d2) =
      [⟨B, U2, n2, some d2⟩] ∧
    oneRowPerBoard (upsertBoardSave (upsertBoardSave m B U1 n1 d1) B U2 n2 d2) ∧
    oneRowPerBoard (upsertBoardSave m B U1 n1 d1) ∧
    oneRowPerBoard (upsertBoardStartup m B U1 n1) := by
  have h1 : oneRowPerBoard (upsertBoardSave m B U1 n1 d1) :=
    oneRowPerBoard_upsertBy B (setSave U1 n1 d1) ⟨B, U1, n1, some d1⟩
      (setSave_board_id U1 n1 d1) rfl m hm
  have h2 : oneRowPerBoard (upsertBoardSave (upsertBoardSave m B U1 n1 d1) B U2 n2 d2) :=
    oneRowPerBoard_upsertBy B (setSave U2 n2 d2) ⟨B, U2, n2, some d2⟩
      (setSave_board_id U2 n2 d2) rfl _ h1
  refine ⟨?_, h2, h1, ?_⟩
  · exact rowsFor_upsertBy_total B (setSave U2 n2 d2) ⟨B, U2, n2, some d2⟩
      (setSave_board_id U2 n2 d2) rfl (fun r hr => setSave_fix B U2 n2 d2 r hr)
      _ h1
  · exact oneRowPerBoard_upsertBy B (setStartup U1 n1) ⟨B, U1, n1, none⟩
      (setStartup_board_id U1 n1) rfl m hm

/-- Witness for C4 at a concrete store: the empty Mapping Store, board "b",
owners "u1" then "u2". -/
theorem mapping_upsert_lww_witness :
    oneRowPerBoard ([] : List BoardRow) ∧
    (rowsFor "b" (upsertBoardSave (upsertBoardSave [] "b" "u1" "n1" "d1") "b" "u2" "n2" "d2") =
        [⟨"b", "u2", "n2", some "d2"⟩] ∧
      oneRowPerBoard (upsertBoardSave (upsertBoardSave [] "b" "u1" "n1" "d1") "b" "u2" "n2" "d2") ∧
      oneRowPerBoard (upsertBoardSave [] "b" "u1" "n1" "d1") ∧
      oneRowPerBoard (upsertBoardStartup [] "b" "u1" "n1")) :=
  ⟨by decide, mapping_upsert_last_writer_wins [] "b" "u1" "u2" "n1" "d1" "n2" "d2" (by decide)⟩

/-- Board as returned by the Trello board-listing call: fields id and name;
id may be absent, and the sweep skips a board with a missing or empty id. -/
structure TrelloBoard where
  id : Option String
  name : String
deriving DecidableEq, Repr

/-- Python truthiness on an optional string: None and the empty string are
falsy. -/
def truthy (s : Option String) : Option String :=
  match s with
  | none => none
  | some s => if s = "" then none else some s

/-- One webhook registration as listed by the provider, keyed by the token
whose listing shows it: (token, callbackURL, idModel). -/
abbrev Registration : Type := String × String × String

/-- Mutable state the startup sweep acts on: the Mapping Store collection and
the set of provider webhook registrations (per token). -/
structure SweepState where
  boardMap : List BoardRow
  webhooks : List Registration
deriving DecidableEq, Repr

/-- Fixed environment of a sweep: the stored (user_id, trello_token) rows,
the boards the provider returns for a token (none models a fetch failure,
which the sweep logs and skips), and the configured callback URL.  The
webhook-listing call and the registration call are modelled as succeeding,
with the listing reflecting the current registration state. -/
structure Env where
  users : List (String × String)
  boardsOf : String → Option (List TrelloBoard)
  callbackURL : String

/-- Modelled from the spec: register_trello_webhook lives in
app/services/trello_service.py, which is not among the source files.  Per
spec section 4.3 step 5 it issues the provider registration call for
(callback_url, board_id) under the given token; the successful call makes
the registration visible in later listings for that token. -/
def register_trello_webhook (bid cb token : String) (s : SweepState) : SweepState :=
  { s with webhooks := s.webhooks ++ [(token, cb, bid)] }

/-- Existence check of app/main.py lines 160-173: list the webhooks of this
token and test whether one already has this (callbackURL, idModel). -/
def webhookListed (token cb bid : String) (s : SweepState) : Bool :=
  (s.webhooks.filter (fun x => x.1 == token)).any (fun x => x.2.1 == cb && x.2.2 == bid)

/-- Per-board body of the startup sweep loop (app/main.py lines 147-188):
skip a board without id, upsert the mapping, skip registration when the
listing already shows the pair, otherwise register.  Returns the new state
and the registration calls issued. -/
def processBoard (cb uid token : String) (b : TrelloBoard) (s : SweepState) :
    SweepState × List Registration :=
  match truthy b.id with
  | none => (s, [])
  | some bid =>
    let m := upsertBoardStartup s.boardMap bid uid b.name
    if webhookListed token cb bid s then ({ s with boardMap := m }, [])
    else ({ boardMap := m, webhooks := s.webhooks ++ [(token, cb, bid)] }, [(token, cb, bid)])

def processBoards (cb uid token : String) : List TrelloBoard → SweepState → SweepState × List Registration
  | [], s => (s, [])
  | b :: bs, s =>
    let p1 := processBoard cb uid token b s
    let p2 := processBoards cb uid token bs p1.1
    (p2.1, p1.2 ++ p2.2)

/-- Per-user body of the startup sweep (app/main.py lines 129-146): skip a
user with an empty token, skip a user whose board fetch fails, else process
each fetched board in order. -/
def processUser (env : Env) (u : String × String) (s : SweepState) :
    SweepState × List Registration :=
  if u.2 = "" then (s, [])
  else
    match env.boardsOf u.2 with
    | none => (s, [])
    | some bs => processBoards env.callbackURL u.1 u.2 bs s

def startupUsers (env : Env) : List (String × String) → SweepState → SweepState × List Registration
  | [], s => (s, [])
  | u :: us, s =>
    let p1 := processUser env u s
    let p2 := startupUsers env us p1.1
    (p2.1, p1.2 ++ p2.2)

/-- Startup reconciliation sweep, app/main.py lines 115-188: walk every
stored user token, upsert its boards into the Mapping Store and register a
webhook per board unless the provider listing already shows it. -/
def startup_all (env : Env) (s : SweepState) : SweepState × List Registration :=
  startupUsers env env.users s

/-- Loop body of the per-account registration endpoint,
app/routes/trello_webhook.py lines 27-40: register every board of the user
with the global token, recording one registration call per board.  No
existence check is made. -/
def regLoop (cb gtok : String) : List String → SweepState → SweepState × List Registration
  | [], s => (s, [])
  | b :: bs, s =>
    let s1 := register_trello_webhook b cb gtok s
    let p2 := regLoop cb gtok bs s1
    (p2.1, (gtok, cb, b) :: p2.2)

/-- POST /trello/webhook/register (app/routes/trello_webhook.py lines 13-42):
fails when no callback URL is configured or the user has no boards
(HTTPException), else registers a webhook for every user board
unconditionally.  user_boards stands for the output of
get_user_generated_boards (app/services/trello_service.py, not among the
source files; per the spec it lists the boards linked to the user). -/
def register_webhook (callback_url : Option String) (gtok : String)
    (user_boards : List String) (s : SweepState) :
    Option (SweepState × List Registration) :=
  match callback_url with
  | none => none
  | some cb => if user_boards.isEmpty then none else some (regLoop cb gtok user_boards s)

/-- One Mapping Store write performed by the sweep: upsert board bid to
owner uid with display name name. -/
structure Write where
  bid : String
  uid : String
  name : String
deriving DecidableEq, Repr

def wrow (w : Write) : BoardRow := ⟨w.bid, w.uid, w.name, none⟩

def wupd (w : Write) (m : List BoardRow) : List BoardRow :=
  updFirstBy (keyIs w.bid) (setStartup w.uid w.name) m

def wApply (m : List BoardRow) (w : Write) : List BoardRow :=
  upsertBoardStartup m w.bid w.uid w.name

def wsApply (m : List BoardRow) (ws : List Write) : List BoardRow :=
  ws.foldl wApply m

def writesKey (ws : List Write) (k : String) : Bool := ws.any (fun w => w.bid == k)

theorem wApply_eq (m : List BoardRow) (w : Write) :
    wApply m w = if hasKey w.bid m then wupd w m else m ++ [wrow w] := rfl

theorem keyIs_setStartup (k u n : String) (r : BoardRow) :
    keyIs k (setStartup u n r) = keyIs k r := rfl

theorem setStartup_idem (u n u2 n2 : String) (r : BoardRow) :
    setStartup u n (setStartup u2 n2 r) = setStartup u n r := rfl

theorem bool_eq_of_iff {a b : Bool} (h : a = true ↔ b = true) : a = b := by
  cases a <;> cases b <;> simp_all

theorem hasKey_wupd (k : String) (w : Write) (m : List BoardRow) :
    hasKey k (wupd w m) = hasKey k m := by
  apply bool_eq_of_iff
  rw [hasKey_iff, hasKey_iff, wupd,
    keysOf_updFirstBy w.bid (setStartup w.uid w.name) (fun r => rfl) m]

theorem hasKey_append_one (k : String) (m : List BoardRow) (r : BoardRow) :
    hasKey k (m ++ [r]) = (hasKey k m || keyIs k r) := by
  simp [hasKey, List.any_append]

theorem hasKey_wApply (k : String) (m : List BoardRow) (w : Write) :
    hasKey k (wApply m w) = (hasKey k m || (w.bid == k)) := by
  rw [wApply_eq]
  cases h : hasKey w.bid m
  · simp only [Bool.false_eq_true, ite_false]
    rw [hasKey_append_one]
    rfl
  · simp only [ite_true]
    rw [hasKey_wupd]
    by_cases hbk : w.bid = k
    · subst hbk; rw [h]; simp
    · simp [hbk]

theorem hasKey_wsApply_mono (k : String) (ws : List Write) :
    ∀ m : List BoardRow, hasKey k m = true → hasKey k (wsApply m ws) = true := by
  induction ws with
  | nil => intro m h; exact h
  | cons w rest ih =>
    intro m h
    have : hasKey k (wApply m w) = true := by rw [hasKey_wApply, h]; rfl
    exact ih (wApply m w) this

theorem wupd_same (w w2 : Write) (h : w.bid = w2.bid) (m : List BoardRow) :
    wupd w2 (wupd w m) = wupd w2 m := by
  induction m with
  | nil => rfl
  | cons r rs ih =>
    by_cases hr : keyIs w.bid r = true
    · have hr2 : keyIs w2.bid r = true := h ▸ hr
      simp [wupd, updFirstBy, hr, hr2, keyIs_setStartup, setStartup_idem]
    · have hr2 : keyIs w2.bid r = false := by
        cases h2 : keyIs w2.bid r
        · rfl
        · exact absurd (h ▸ h2) (by simpa using hr)
      simp only [wupd, updFirstBy, hr, hr2, Bool.false_eq_true, ite_false]
      simpa [wupd] using ih

theorem wupd_comm (w w2 : Write) (h : w.bid ≠ w2.bid) (m : List BoardRow) :
    wupd w (wupd w2 m) = wupd w2 (wupd w m) := by
  induction m with
  | nil => rfl
  | cons r rs ih =>
    by_cases h1 : keyIs w.bid r = true
    · have h2 : keyIs w2.bid r = false := by
        cases hc : keyIs w2.bid r
        · rfl
        · exact absurd (((keyIs_iff _ _).1 h1).symm.trans ((keyIs_iff _ _).1 hc))
            (by simpa using h)
      simp [wupd, updFirstBy, h1, h2, keyIs_setStartup]
    · by_cases h2 : keyIs w2.bid r = true
      · simp [wupd, updFirstBy, h1, h2, keyIs_setStartup]
      · have h1f : keyIs w.bid r = false := by simpa using h1
        have h2f : keyIs w2.bid r = false := by simpa using h2
        simp only [wupd, updFirstBy, h1f, h2f, Bool.false_eq_true, ite_false]
        simpa [wupd] using ih

theorem wupd_append (w : Write) (l : List BoardRow) :
    ∀ m : List BoardRow, hasKey w.bid m = true → wupd w (m ++ l) = wupd w m ++ l := by
  intro m
  induction m with
  | nil => intro h; exact absurd h (by simp [hasKey])
  | cons r rs ih =>
    intro h
    by_cases hr : keyIs w.bid r = true
    · simp [wupd, updFirstBy, hr]
    · have hrs : hasKey w.bid rs = true := by
        have hrf : keyIs w.bid r = false := by simpa using hr
        simpa [hasKey, List.any_cons, hrf] using h
      simp only [List.cons_append, wupd, updFirstBy, hr, Bool.false_eq_true, ite_false]
      have h3 := ih hrs
      simp only [wupd] at h3
      exact congrArg (fun x => r :: x) h3

theorem wApply_comm (w w2 : Write) (m : List BoardRow)
    (h : w.bid ≠ w2.bid) (hk : hasKey w.bid m = true) :
    wApply (wApply m w) w2 = wApply (wApply m w2) w := by
  cases h2 : hasKey w2.bid m
  · rw [wApply_eq m w, if_pos hk, wApply_eq (wupd w m) w2, hasKey_wupd, h2,
      if_neg (by simp), wApply_eq m w2, if_neg (by simp [h2]),
      wApply_eq (m ++ [wrow w2]) w, if_pos (by rw [hasKey_append_one, hk]; rfl),
      wupd_append w [wrow w2] m hk]
  · rw [wApply_eq m w, if_pos hk, wApply_eq (wupd w m) w2, hasKey_wupd, h2, if_pos rfl,
      wApply_eq m w2, if_pos h2, wApply_eq (wupd w2 m) w, hasKey_wupd, hk, if_pos rfl,
      wupd_comm w w2 h m]

theorem wsApply_nil (m : List BoardRow) : wsApply m [] = m := rfl

theorem wsApply_cons (m : List BoardRow) (w : Write) (ws : List Write) :
    wsApply m (w :: ws) = wsApply (wApply m w) ws := rfl

theorem wsApply_append_ws (m : List BoardRow) (a b : List Write) :
    wsApply m (a ++ b) = wsApply (wsApply m a) b := List.foldl_append wApply m a b

theorem findFirst_wupd_ne (w : Write) (k : String) (h : w.bid ≠ k) (m : List BoardRow) :
    findFirst (keyIs k) (wupd w m) = findFirst (keyIs k) m := by
  induction m with
  | nil => rfl
  | cons r rs ih =>
    by_cases hr : keyIs w.bid r = true
    · have hkr : keyIs k r = false := by
        cases hc : keyIs k r
        · rfl
        · exact absurd (((keyIs_iff _ _).1 hr).symm.trans ((keyIs_iff _ _).1 hc)) h
      have hkf : keyIs k (setStartup w.uid w.name r) = false := by
        rw [keyIs_setStartup]; exact hkr
      simp [wupd, updFirstBy, hr, findFirst, hkr, hkf]
    · by_cases hk : keyIs k r = true
      · simp [wupd, updFirstBy, hr, findFirst, hk]
      · have h1f : keyIs w.bid r = false := by simpa using hr
        have h2f : keyIs k r = false := by simpa using hk
        simp only [wupd, updFirstBy, h1f, Bool.false_eq_true, ite_false, findFirst, h2f]
        simpa [wupd] using ih

theorem findFirst_none_of_not_has (k : String) (m : List BoardRow)
    (h : hasKey k m = false) : findFirst (keyIs k) m = none := by
  induction m with
  | nil => rfl
  | cons r rs ih =>
    have hr : keyIs k r = false := by
      cases hc : keyIs k r
      · rfl
      · rw [hasKey, List.any_cons, hc] at h; exact Bool.noConfusion h
    have hrs : hasKey k rs = false := by
      rw [hasKey, List.any_cons, hr] at h; simpa [hasKey] using h
    simp [findFirst, hr, ih hrs]

theorem findFirst_wApply_ne (w : Write) (k : String) (h : w.bid ≠ k) (m : List BoardRow) :
    findFirst (keyIs k) (wApply m w) = findFirst (keyIs k) m := by
  rw [wApply_eq]
  cases hk : hasKey w.bid m
  · simp only [Bool.false_eq_true, ite_false]
    rw [findFirst_append]
    have hw : keyIs k (wrow w) = false := by
      cases hc : keyIs k (wrow w)
      · rfl
      · exact absurd ((keyIs_iff _ _).1 hc) h
    cases hf : findFirst (keyIs k) m
    · simp [findFirst, hw]
    · simp
  · simp only [ite_true]
    exact findFirst_wupd_ne w k h m

theorem findFirst_wsApply_fresh (k : String) (ws : List Write) (h : writesKey ws k = false) :
    ∀ m : List BoardRow, findFirst (keyIs k) (wsApply m ws) = findFirst (keyIs k) m := by
  induction ws with
  | nil => intro m; rfl
  | cons w rest ih =>
    intro m
    have hw : w.bid ≠ k := by
      intro he
      rw [writesKey, List.any_cons] at h
      simp [he] at h
    have hrest : writesKey rest k = false := by
      rw [writesKey, List.any_cons] at h
      cases hc : rest.any (fun w => w.bid == k)
      · rw [writesKey]; exact hc
      · rw [writesKey]; rw [hc] at h; simp at h
    rw [wsApply_cons, ih hrest, findFirst_wApply_ne w k hw]

theorem findFirst_wupd_self (w : Write) :
    ∀ m : List BoardRow, hasKey w.bid m = true →
      ∃ r, findFirst (keyIs w.bid) (wupd w m) = some r ∧ setStartup w.uid w.name r = r := by
  intro m
  induction m with
  | nil => intro h; exact absurd h (by simp [hasKey])
  | cons r rs ih =>
    intro h
    by_cases hr : keyIs w.bid r = true
    · refine ⟨setStartup w.uid w.name r, ?_, setStartup_idem w.uid w.name w.uid w.name r⟩
      have : keyIs w.bid (setStartup w.uid w.name r) = true := by
        rw [keyIs_setStartup]; exact hr
      simp [wupd, updFirstBy, hr, findFirst, this]
    · have hrf : keyIs w.bid r = false := by simpa using hr
      have hrs : hasKey w.bid rs = true := by
        simpa [hasKey, List.any_cons, hrf] using h
      obtain ⟨x, hx1, hx2⟩ := ih hrs
      refine ⟨x, ?_, hx2⟩
      simp only [wupd, updFirstBy, hrf, Bool.false_eq_true, ite_false, findFirst]
      simpa [wupd] using hx1

theorem findFirst_wApply_self (w : Write) (m : List BoardRow) :
    ∃ r, findFirst (keyIs w.bid) (wApply m w) = some r ∧ setStartup w.uid w.name r = r := by
  rw [wApply_eq]
  cases hk : hasKey w.bid m
  · simp only [Bool.false_eq_true, ite_false]
    refine ⟨wrow w, ?_, rfl⟩
    rw [findFirst_append, findFirst_none_of_not_has w.bid m hk]
    simp [findFirst, keyIs, wrow]
  · simp only [ite_true]
    exact findFirst_wupd_self w m hk

theorem wupd_absorb (w : Write) :
    ∀ m : List BoardRow, ∀ r, findFirst (keyIs w.bid) m = some r →
      setStartup w.uid w.name r = r → wupd w m = m := by
  intro m
  induction m with
  | nil => intro r hr; exact absurd hr (by simp [findFirst])
  | cons r0 rs ih =>
    intro r hr habs
    by_cases h0 : keyIs w.bid r0 = true
    · have : r0 = r := by
        rw [findFirst, if_pos h0] at hr
        exact Option.some.inj hr
      subst this
      simp [wupd, updFirstBy, h0, habs]
    · have h0f : keyIs w.bid r0 = false := by simpa using h0
      have hr2 : findFirst (keyIs w.bid) rs = some r := by
        rw [findFirst, if_neg (by simp [h0f])] at hr
        exact hr
      simp only [wupd, updFirstBy, h0f, Bool.false_eq_true, ite_false]
      have h3 := ih r hr2 habs
      simp only [wupd] at h3
      rw [h3]

theorem hasKey_wApply_self (w : Write) (m : List BoardRow) :
    hasKey w.bid (wApply m w) = true := by
  rw [hasKey_wApply]; simp

/-- Running a tail of writes after an extra application of w changes nothing,
provided the key of w is already present and either the tail writes that key
again or the extra application is a no-op. -/
theorem wsApply_skip (w : Write) :
    ∀ t : List Write, ∀ m : List BoardRow, hasKey w.bid m = true →
      (writesKey t w.bid = true ∨ wApply m w = m) →
      wsApply (wApply m w) t = wsApply m t := by
  intro t
  induction t with
  | nil =>
    intro m _ h
    rcases h with h | h
    · exact absurd h (by simp [writesKey])
    · rw [wsApply_nil, wsApply_nil, h]
  | cons w2 rest ih =>
    intro m hk h
    by_cases hw : w2.bid = w.bid
    · have heq : wApply (wApply m w) w2 = wApply m w2 := by
        rw [wApply_eq (wApply m w) w2, wApply_eq m w2]
        have hk2 : hasKey w2.bid m = true := hw ▸ hk
        have hk2a : hasKey w2.bid (wApply m w) = true := by
          rw [hasKey_wApply, hk2]; rfl
        rw [if_pos hk2a, if_pos hk2, wApply_eq m w, if_pos hk]
        exact wupd_same w w2 hw.symm m
      rw [wsApply_cons, wsApply_cons, heq]
    · rcases h with h | h
      · have hrest : writesKey rest w.bid = true := by
          rw [writesKey, List.any_cons] at h
          have : (w2.bid == w.bid) = false := by simp [hw]
          rw [this] at h
          simpa [writesKey] using h
      
        have hcomm : wApply (wApply m w) w2 = wApply (wApply m w2) w :=
          wApply_comm w w2 m (fun he => hw he.symm) hk
        have hk2 : hasKey w.bid (wApply m w2) = true := by
          rw [hasKey_wApply, hk]; rfl
        rw [wsApply_cons, hcomm, ih (wApply m w2) hk2 (Or.inl hrest), wsApply_cons]
      · rw [h]

/-- Applying the same sequence of sweep writes twice is the same as applying
it once. -/
theorem wsApply_idem : ∀ ws : List Write, ∀ m : List BoardRow,
    wsApply (wsApply m ws) ws = wsApply m ws := by
  intro ws
  induction ws with
  | nil => intro m; rfl
  | cons w t ih =>
    intro m
    rw [wsApply_cons m w t]
    rw [wsApply_cons (wsApply (wApply m w) t) w t]
    have hkM : hasKey w.bid (wsApply (wApply m w) t) = true :=
      hasKey_wsApply_mono w.bid t (wApply m w) (hasKey_wApply_self w m)
    by_cases hw : writesKey t w.bid = true
    · rw [wsApply_skip w t (wsApply (wApply m w) t) hkM (Or.inl hw)]
      exact ih (wApply m w)
    · have hfresh : writesKey t w.bid = false := by simpa using hw
      obtain ⟨r, hr1, hr2⟩ := findFirst_wApply_self w m
      have hfind : findFirst (keyIs w.bid) (wsApply (wApply m w) t) = some r := by
        rw [findFirst_wsApply_fresh w.bid t hfresh (wApply m w)]
        exact hr1
      have habs : wApply (wsApply (wApply m w) t) w = wsApply (wApply m w) t := by
        rw [wApply_eq, if_pos hkM]
        exact wupd_absorb w (wsApply (wApply m w) t) r hfind hr2
      rw [habs]
      exact ih (wApply m w)

theorem webhookListed_iff (token cb bid : String) (s : SweepState) :
    webhookListed token cb bid s = true ↔ (token, cb, bid) ∈ s.webhooks := by
  simp only [webhookListed, List.any_eq_true, List.mem_filter, Bool.and_eq_true, beq_iff_eq]
  constructor
  · rintro ⟨x, ⟨hx, h1⟩, h2, h3⟩
    obtain ⟨a, b, c⟩ := x
    simp only at h1 h2 h3
    subst h1; subst h2; subst h3
    exact hx
  · intro hx
    exact ⟨(token, cb, bid), ⟨hx, rfl⟩, rfl, rfl⟩

theorem processBoard_noid (cb uid token : String) (b : TrelloBoard) (s : SweepState)
    (h : truthy b.id = none) : processBoard cb uid token b s = (s, []) := by
  unfold processBoard
  rw [h]

theorem processBoard_eq_skip (cb uid token : String) (b : TrelloBoard) (s : SweepState)
    (bid : String) (h : truthy b.id = some bid) (hw : (token, cb, bid) ∈ s.webhooks) :
    processBoard cb uid token b s =
      (⟨upsertBoardStartup s.boardMap bid uid b.name, s.webhooks⟩, []) := by
  unfold processBoard
  rw [h]
  simp only [if_pos ((webhookListed_iff token cb bid s).2 hw)]

theorem processBoard_eq_reg (cb uid token : String) (b : TrelloBoard) (s : SweepState)
    (bid : String) (h : truthy b.id = some bid) (hw : (token, cb, bid) ∉ s.webhooks) :
    processBoard cb uid token b s =
      (⟨upsertBoardStartup s.boardMap bid uid b.name, s.webhooks ++ [(token, cb, bid)]⟩,
        [(token, cb, bid)]) := by
  unfold processBoard
  rw [h]
  have hl : ¬webhookListed token cb bid s = true :=
    fun hl => hw ((webhookListed_iff token cb bid s).1 hl)
  simp only [if_neg hl]

/-- Mapping Store writes performed by the sweep for one fetched board list. -/
def writesOfBoards (uid : String) : List TrelloBoard → List Write
  | [] => []
  | b :: bs =>
    match truthy b.id with
    | none => writesOfBoards uid bs
    | some bid => ⟨bid, uid, b.name⟩ :: writesOfBoards uid bs

/-- Mapping Store writes performed by the sweep for one user. -/
def writesOfUser (env : Env) (u : String × String) : List Write :=
  if u.2 = "" then []
  else
    match env.boardsOf u.2 with
    | none => []
    | some bs => writesOfBoards u.1 bs

/-- Mapping Store writes performed by the whole sweep, in order. -/
def writesOfUsers (env : Env) : List (String × String) → List Write
  | [] => []
  | u :: us => writesOfUser env u ++ writesOfUsers env us

theorem processBoard_boardMap (cb uid token : String) (b : TrelloBoard) (s : SweepState) :
    (processBoard cb uid token b s).1.boardMap =
      wsApply s.boardMap (writesOfBoards uid [b]) := by
  cases h : truthy b.id
  · rw [processBoard_noid cb uid token b s h]
    simp [writesOfBoards, h, wsApply_nil]
  · rename_i bid
    by_cases hw : (token, cb, bid) ∈ s.webhooks
    · rw [processBoard_eq_skip cb uid token b s bid h hw]
      simp [writesOfBoards, h, wsApply, wApply]
    · rw [processBoard_eq_reg cb uid token b s bid h hw]
      simp [writesOfBoards, h, wsApply, wApply]

theorem processBoard_webhooks_mono (cb uid token : String) (b : TrelloBoard) (s : SweepState)
    (x : Registration) (hx : x ∈ s.webhooks) :
    x ∈ (processBoard cb uid token b s).1.webhooks := by
  cases h : truthy b.id
  · rw [processBoard_noid cb uid token b s h]; exact hx
  · rename_i bid
    by_cases hw : (token, cb, bid) ∈ s.webhooks
    · rw [processBoard_eq_skip cb uid token b s bid h hw]; exact hx
    · rw [processBoard_eq_reg cb uid token b s bid h hw]
      exact List.mem_append_left _ hx

theorem processBoards_boardMap (cb uid token : String) :
    ∀ (bs : List TrelloBoard) (s : SweepState),
      (processBoards cb uid token bs s).1.boardMap =
        wsApply s.boardMap (writesOfBoards uid bs) := by
  intro bs
  induction bs with
  | nil => intro s; rfl
  | cons b rest ih =>
    intro s
    show (processBoards cb uid token rest (processBoard cb uid token b s).1).1.boardMap = _
    rw [ih]
    rw [processBoard_boardMap cb uid token b s]
    cases h : truthy b.id
    · simp [writesOfBoards, h, wsApply_nil]
    · rename_i bid
      simp only [writesOfBoards, h]
      rw [← wsApply_append_ws]
      rfl

theorem processBoards_webhooks_mono (cb uid token : String) :
    ∀ (bs : List TrelloBoard) (s : SweepState) (x : Registration), x ∈ s.webhooks →
      x ∈ (processBoards cb uid token bs s).1.webhooks := by
  intro bs
  induction bs with
  | nil => intro s x hx; exact hx
  | cons b rest ih =>
    intro s x hx
    exact ih (processBoard cb uid token b s).1 x
      (processBoard_webhooks_mono cb uid token b s x hx)

theorem processBoard_covers (cb uid token : String) (b : TrelloBoard) (s : SweepState)
    (bid : String) (h : truthy b.id = some bid) :
    (token, cb, bid) ∈ (processBoard cb uid token b s).1.webhooks := by
  by_cases hw : (token, cb, bid) ∈ s.webhooks
  · rw [processBoard_eq_skip cb uid token b s bid h hw]; exact hw
  · rw [processBoard_eq_reg cb uid token b s bid h hw]
    exact List.mem_append_right _ (List.mem_singleton.2 rfl)

theorem processBoards_covers (cb uid token : String) :
    ∀ (bs : List TrelloBoard) (s : SweepState) (b : TrelloBoard), b ∈ bs →
      ∀ bid, truthy b.id = some bid →
        (token, cb, bid) ∈ (processBoards cb uid token bs s).1.webhooks := by
  intro bs
  induction bs with
  | nil => intro s b hb; exact absurd hb (List.not_mem_nil b)
  | cons b0 rest ih =>
    intro s b hb bid h
    rcases List.mem_cons.1 hb with hb0 | hbr
    · subst hb0
      exact processBoards_webhooks_mono cb uid token rest (processBoard cb uid token b s).1
        (token, cb, bid) (processBoard_covers cb uid token b s bid h)
    · exact ih (processBoard cb uid token b0 s).1 b hbr bid h

theorem processUser_boardMap (env : Env) (u : String × String) (s : SweepState) :
    (processUser env u s).1.boardMap = wsApply s.boardMap (writesOfUser env u) := by
  unfold processUser writesOfUser
  by_cases h : u.2 = ""
  · simp [h, wsApply_nil]
  · simp only [h, ite_false]
    cases hb : env.boardsOf u.2
    · simp [wsApply_nil]
    · exact processBoards_boardMap env.callbackURL u.1 u.2 _ s

theorem processUser_webhooks_mono (env : Env) (u : String × String) (s : SweepState)
    (x : Registration) (hx : x ∈ s.webhooks) :
    x ∈ (processUser env u s).1.webhooks := by
  unfold processUser
  by_cases h : u.2 = ""
  · simp only [h, ite_true]; exact hx
  · simp only [h, ite_false]
    cases hb : env.boardsOf u.2
    · exact hx
    · exact processBoards_webhooks_mono env.callbackURL u.1 u.2 _ s x hx

theorem startupUsers_boardMap (env : Env) :
    ∀ (us : List (String × String)) (s : SweepState),
      (startupUsers env us s).1.boardMap = wsApply s.boardMap (writesOfUsers env us) := by
  intro us
  induction us with
  | nil => intro s; rfl
  | cons u rest ih =>
    intro s
    show (startupUsers env rest (processUser env u s).1).1.boardMap = _
    rw [ih, processUser_boardMap env u s]
    show _ = wsApply s.boardMap (writesOfUser env u ++ writesOfUsers env rest)
    rw [wsApply_append_ws]

theorem startupUsers_webhooks_mono (env : Env) :
    ∀ (us : List (String × String)) (s : SweepState) (x : Registration), x ∈ s.webhooks →
      x ∈ (startupUsers env us s).1.webhooks := by
  intro us
  induction us with
  | nil => intro s x hx; exact hx
  | cons u rest ih =>
    intro s x hx
    exact ih (processUser env u s).1 x (processUser_webhooks_mono env u s x hx)

/-- Coverage of one user by a sweep state: every board of that user with a
usable id has its webhook pair present in the registration set. -/
def sweepCovered (env : Env) (u : String × String) (s : SweepState) : Prop :=
  ∀ bs : List TrelloBoard, u.2 ≠ "" → env.boardsOf u.2 = some bs →
    ∀ b ∈ bs, ∀ bid, truthy b.id = some bid →
      (u.2, env.callbackURL, bid) ∈ s.webhooks

theorem processUser_covers (env : Env) (u : String × String) (s : SweepState) :
    sweepCovered env u (processUser env u s).1 := by
  intro bs hne hb b hbmem bid hbid
  unfold processUser
  simp only [hne, ite_false, hb]
  exact processBoards_covers env.callbackURL u.1 u.2 bs s b hbmem bid hbid

theorem sweepCovered_mono (env : Env) (u : String × String) (s s2 : SweepState)
    (h : sweepCovered env u s) (hmono : ∀ x : Registration, x ∈ s.webhooks → x ∈ s2.webhooks) :
    sweepCovered env u s2 := by
  intro bs hne hb b hbmem bid hbid
  exact hmono _ (h bs hne hb b hbmem bid hbid)

theorem startupUsers_covers (env : Env) :
    ∀ (us : List (String × String)) (s : SweepState) (u : String × String), u ∈ us →
      sweepCovered env u (startupUsers env us s).1 := by
  intro us
  induction us with
  | nil => intro s u hu; exact absurd hu (List.not_mem_nil u)
  | cons u0 rest ih =>
    intro s u hu
    rcases List.mem_cons.1 hu with h0 | hr
    · subst h0
      show sweepCovered env u (startupUsers env rest (processUser env u s).1).1
      exact sweepCovered_mono env u (processUser env u s).1 _
        (processUser_covers env u s)
        (fun x hx => startupUsers_webhooks_mono env rest (processUser env u s).1 x hx)
    · exact ih (processUser env u0 s).1 u hr

theorem processBoards_skip (cb uid token : String) :
    ∀ (bs : List TrelloBoard) (s : SweepState),
      (∀ b ∈ bs, ∀ bid, truthy b.id = some bid → (token, cb, bid) ∈ s.webhooks) →
      processBoards cb uid token bs s =
        (⟨wsApply s.boardMap (writesOfBoards uid bs), s.webhooks⟩, []) := by
  intro bs
  induction bs with
  | nil => intro s _; rfl
  | cons b rest ih =>
    intro s hcov
    cases h : truthy b.id
    · show (let p1 := processBoard cb uid token b s
            let p2 := processBoards cb uid token rest p1.1
            (p2.1, p1.2 ++ p2.2)) = _
      rw [processBoard_noid cb uid token b s h]
      simp only []
      rw [ih s (fun b2 hb2 bid hbid => hcov b2 (List.mem_cons_of_mem b hb2) bid hbid)]
      simp [writesOfBoards, h]
    · rename_i bid
      have hw : (token, cb, bid) ∈ s.webhooks := hcov b (List.mem_cons_self b rest) bid h
      show (let p1 := processBoard cb uid token b s
            let p2 := processBoards cb uid token rest p1.1
            (p2.1, p1.2 ++ p2.2)) = _
      rw [processBoard_eq_skip cb uid token b s bid h hw]
      simp only []
      rw [ih ⟨upsertBoardStartup s.boardMap bid uid b.name, s.webhooks⟩
        (fun b2 hb2 bid2 hbid2 => hcov b2 (List.mem_cons_of_mem b hb2) bid2 hbid2)]
      simp only [writesOfBoards, h, List.nil_append]
      rfl

theorem processUser_skip (env : Env) (u : String × String) (s : SweepState)
    (h : sweepCovered env u s) :
    processUser env u s = (⟨wsApply s.boardMap (writesOfUser env u), s.webhooks⟩, []) := by
  unfold processUser writesOfUser
  by_cases hne : u.2 = ""
  · simp [hne, wsApply_nil]
  · simp only [hne, ite_false]
    cases hb : env.boardsOf u.2
    · simp [wsApply_nil]
    · rename_i bs
      exact processBoards_skip env.callbackURL u.1 u.2 bs s
        (fun b hbmem bid hbid => h bs hne hb b hbmem bid hbid)

theorem startupUsers_skip (env : Env) :
    ∀ (us : List (String × String)) (s : SweepState),
      (∀ u ∈ us, sweepCovered env u s) →
      startupUsers env us s =
        (⟨wsApply s.boardMap (writesOfUsers env us), s.webhooks⟩, []) := by
  intro us
  induction us with
  | nil => intro s _; rfl
  | cons u rest ih =>
    intro s hcov
    show (let p1 := processUser env u s
          let p2 := startupUsers env rest p1.1
          (p2.1, p1.2 ++ p2.2)) = _
    rw [processUser_skip env u s (hcov u (List.mem_cons_self u rest))]
    simp only []
    have hcov2 : ∀ u2 ∈ rest, sweepCovered env u2
        (⟨wsApply s.boardMap (writesOfUser env u), s.webhooks⟩ : SweepState) := by
      intro u2 hu2
      exact sweepCovered_mono env u2 s _ (hcov u2 (List.mem_cons_of_mem u hu2))
        (fun x hx => hx)
    rw [ih ⟨wsApply s.boardMap (writesOfUser env u), s.webhooks⟩ hcov2]
    simp only [writesOfUsers, List.nil_append]
    rw [wsApply_append_ws]

/-- C3: the reconciliation sweep is idempotent.  Running the startup sweep a
second time immediately after a first run, against the same environment and
with no external state change in between, issues zero webhook registration
calls and leaves the Mapping Store and the registration set exactly as the
first run left them. -/
theorem reconciler_sweep_idempotent (env : Env) (s : SweepState) :
    (startup_all env (startup_all env s).1).2 = [] ∧
    (startup_all env (startup_all env s).1).1 = (startup_all env s).1 := by
  have hcov : ∀ u ∈ env.users, sweepCovered env u (startup_all env s).1 :=
    fun u hu => startupUsers_covers env env.users s u hu
  have hskip := startupUsers_skip env env.users (startup_all env s).1 hcov
  have hmap : (startup_all env s).1.boardMap =
      wsApply s.boardMap (writesOfUsers env env.users) :=
    startupUsers_boardMap env env.users s
  have hfix : wsApply (startup_all env s).1.boardMap (writesOfUsers env env.users) =
      (startup_all env s).1.boardMap := by
    rw [hmap, wsApply_idem]
  constructor
  · show (startupUsers env env.users (startup_all env s).1).2 = []
    rw [hskip]
  · show (startupUsers env env.users (startup_all env s).1).1 = (startup_all env s).1
    rw [hskip]
    show (⟨wsApply (startup_all env s).1.boardMap (writesOfUsers env env.users),
        (startup_all env s).1.webhooks⟩ : SweepState) = (startup_all env s).1
    rw [hfix]

theorem processBoard_regs_fresh (cb uid token : String) (b : TrelloBoard) (s : SweepState)
    (x : Registration) (hx : x ∈ s.webhooks) :
    x ∉ (processBoard cb uid token b s).2 := by
  cases h : truthy b.id
  · rw [processBoard_noid cb uid token b s h]
    exact List.not_mem_nil x
  · rename_i bid
    by_cases hw : (token, cb, bid) ∈ s.webhooks
    · rw [processBoard_eq_skip cb uid token b s bid h hw]
      exact List.not_mem_nil x
    · rw [processBoard_eq_reg cb uid token b s bid h hw]
      intro hmem
      exact hw (List.mem_singleton.1 hmem ▸ hx)

theorem processBoards_regs_fresh (cb uid token : String) :
    ∀ (bs : List TrelloBoard) (s : SweepState) (x : Registration), x ∈ s.webhooks →
      x ∉ (processBoards cb uid token bs s).2 := by
  intro bs
  induction bs with
  | nil => intro s x _; exact List.not_mem_nil x
  | cons b rest ih =>
    intro s x hx
    show x ∉ (processBoard cb uid token b s).2 ++ (processBoards cb uid token rest _).2
    intro hmem
    rcases List.mem_append.1 hmem with h1 | h2
    · exact processBoard_regs_fresh cb uid token b s x hx h1
    · exact ih (processBoard cb uid token b s).1 x
        (processBoard_webhooks_mono cb uid token b s x hx) h2

theorem processUser_regs_fresh (env : Env) (u : String × String) (s : SweepState)
    (x : Registration) (hx : x ∈ s.webhooks) :
    x ∉ (processUser env u s).2 := by
  unfold processUser
  by_cases h : u.2 = ""
  · simp only [h, ite_true]; exact List.not_mem_nil x
  · simp only [h, ite_false]
    cases hb : env.boardsOf u.2
    · exact List.not_mem_nil x
    · exact processBoards_regs_fresh env.callbackURL u.1 u.2 _ s x hx

theorem startupUsers_regs_fresh (env : Env) :
    ∀ (us : List (String × String)) (s : SweepState) (x : Registration), x ∈ s.webhooks →
      x ∉ (startupUsers env us s).2 := by
  intro us
  induction us with
  | nil => intro s x _; exact List.not_mem_nil x
  | cons u rest ih =>
    intro s x hx
    show x ∉ (processUser env u s).2 ++ (startupUsers env rest _).2
    intro hmem
    rcases List.mem_append.1 hmem with h1 | h2
    · exact processUser_regs_fresh env u s x hx h1
    · exact ih (processUser env u s).1 x (processUser_webhooks_mono env u s x hx) h2

theorem regLoop_mem (cb gtok : String) (b : String) :
    ∀ (bs : List String) (s : SweepState), b ∈ bs →
      (gtok, cb, b) ∈ (regLoop cb gtok bs s).2 := by
  intro bs
  induction bs with
  | nil => intro s hb; exact absurd hb (List.not_mem_nil b)
  | cons b0 rest ih =>
    intro s hb
    show (gtok, cb, b) ∈ (gtok, cb, b0) :: (regLoop cb gtok rest _).2
    rcases List.mem_cons.1 hb with h0 | hr
    · exact List.mem_cons.2 (Or.inl (by rw [h0]))
    · exact List.mem_cons.2 (Or.inr (ih _ hr))

/-- C2 (amended): the existence check on (callbackURL, idModel) is performed
by the startup sweep only.  A registration already visible in a token's
listing is never the subject of another sweep registration call, while the
per-account endpoint POST /trello/webhook/register issues a registration
call for every stored board of the user unconditionally, even when the
identical (callback_url, board_id) registration is already listed. -/
theorem registration_check_sweep_only (env : Env) (s : SweepState) (x : Registration)
    (hx : x ∈ s.webhooks) (cb gtok b : String) (bs : List String) (hb : b ∈ bs)
    (res : SweepState × List Registration)
    (hres : register_webhook (some cb) gtok bs s = some res) :
    x ∉ (startup_all env s).2 ∧ (gtok, cb, b) ∈ res.2 := by
  constructor
  · exact startupUsers_regs_fresh env env.users s x hx
  · have hne : bs.isEmpty = false := by
      cases bs
      · exact absurd hb (List.not_mem_nil b)
      · rfl
    unfold register_webhook at hres
    rw [hne] at hres
    simp only [Bool.false_eq_true, ite_false, Option.some.injEq] at hres
    rw [← hres]
    exact regLoop_mem cb gtok b bs s hb

/-- Counterexample to C2 as stated: with a provider listing that already
shows the registration ("t1", "cbu", "b1"), the per-account registration
endpoint still issues a registration call for that exact pair. -/
theorem registration_endpoint_duplicate_cex :
    ("t1", "cbu", "b1") ∈ (SweepState.mk [] [("t1", "cbu", "b1")]).webhooks ∧
    (register_webhook (some "cbu") "t1" ["b1"] (SweepState.mk [] [("t1", "cbu", "b1")])).map
        (fun res => res.2) =
      some [("t1", "cbu", "b1")] := by
  constructor
  · decide
  · rfl

/-- Witness for C2 (amended) at a concrete environment and state. -/
theorem registration_check_sweep_only_witness :
    (("t1", "cbu", "b1") : Registration) ∈ (SweepState.mk [] [("t1", "cbu", "b1")]).webhooks ∧
    ("b1" : String) ∈ ["b1"] ∧
    register_webhook (some "cbu") "t1" ["b1"] (SweepState.mk [] [("t1", "cbu", "b1")]) =
      some (SweepState.mk [] [("t1", "cbu", "b1"), ("t1", "cbu", "b1")],
        [("t1", "cbu", "b1")]) ∧
    (("t1", "cbu", "b1") : Registration) ∉
      (startup_all (Env.mk [("u1", "t1")] (fun _ => some [TrelloBoard.mk (some "b1") "Sprint"]) "cbu")
        (SweepState.mk [] [("t1", "cbu", "b1")])).2 ∧
    (("t1", "cbu", "b1") : Registration) ∈
      [(("t1", "cbu", "b1") : Registration)] :=
  ⟨by decide, by decide, by rfl,
    (registration_check_sweep_only
      (Env.mk [("u1", "t1")] (fun _ => some [TrelloBoard.mk (some "b1") "Sprint"]) "cbu")
      (SweepState.mk [] [("t1", "cbu", "b1")]) ("t1", "cbu", "b1") (by decide)
      "cbu" "t1" "b1" ["b1"] (by decide)
      (SweepState.mk [] [("t1", "cbu", "b1"), ("t1", "cbu", "b1")], [("t1", "cbu", "b1")])
      (by rfl)).1,
    (registration_check_sweep_only
      (Env.mk [("u1", "t1")] (fun _ => some [TrelloBoard.mk (some "b1") "Sprint"]) "cbu")
      (SweepState.mk [] [("t1", "cbu", "b1")]) ("t1", "cbu", "b1") (by decide)
      "cbu" "t1" "b1" ["b1"] (by decide)
      (SweepState.mk [] [("t1", "cbu", "b1"), ("t1", "cbu", "b1")], [("t1", "cbu", "b1")])
      (by rfl)).2⟩

/-- Board object inside a webhook payload (action.data.board). -/
structure BoardRef where
  id : Option String
  name : Option String
deriving DecidableEq, Repr

/-- Card object inside a webhook payload (action.data.card). -/
structure CardRef where
  name : Option String
deriving DecidableEq, Repr

/-- Action object of a Trello webhook payload.  The data level of the JSON
is collapsed: board and card stand for action.data.board and
action.data.card; the code reads every level with get(..., default)
accesses, so an absent intermediate object is the same as absent leaves,
which none fields model. -/
structure ActionObj where
  type : Option String
  board : Option BoardRef
  card : Option CardRef
  memberName : Option String
deriving DecidableEq, Repr

/-- A parsed webhook body: at most an action object. -/
structure WebhookPayload where
  action : Option ActionObj
deriving DecidableEq, Repr

def actionBoardId (a : ActionObj) : Option String :=
  match a.board with
  | none => none
  | some b => b.id

def actionBoardName (a : ActionObj) : Option String :=
  match a.board with
  | none => none
  | some b => b.name

def actionCardName (a : ActionObj) : Option String :=
  match a.card with
  | none => none
  | some c => c.name

/-- payload.get("action", {}).get("data", {}).get("board", {}).get("id") of
app/main.py line 93. -/
def payloadBoardId (p : WebhookPayload) : Option String :=
  match p.action with
  | none => none
  | some a => actionBoardId a

/-- Result of the POST /pm handler of app/main.py: the HTTP status (FastAPI
answers a returned dict with status 200), the status field of the JSON body,
and the background execute_workflow tasks created, as (user_id, board_id)
pairs. -/
structure EventResult where
  httpStatus : Nat
  bodyStatus : String
  tasks : List (String × String)
deriving DecidableEq, Repr

/-- POST /pm handler of app/main.py lines 85-111: drop the event (status
ignored) when the payload carries no board id, drop it (status error) when
the board has no Mapping Store row, else create one background
execute_workflow task for the first mapped owner.  Every branch returns a
plain dict, which FastAPI serves with HTTP status 200. -/
def trello_webhook_event (p : WebhookPayload) (m : List BoardRow) : EventResult :=
  match truthy (payloadBoardId p) with
  | none => ⟨200, "ignored", []⟩
  | some bid =>
    match findFirst (keyIs bid) m with
    | none => ⟨200, "error", []⟩
    | some row => ⟨200, "success", [(row.user_id, bid)]⟩

/-- The event names no board, or names a board with no Mapping Store row. -/
def noMappedOwner (p : WebhookPayload) (m : List BoardRow) : Prop :=
  ∀ bid, truthy (payloadBoardId p) = some bid → findFirst (keyIs bid) m = none

/-- C6: dispatcher drop safety.  A webhook event whose payload lacks a board
identifier, or whose board identifier has no entry in the Mapping Store, is
acknowledged with HTTP status 200 and schedules zero generation tasks. -/
theorem dispatcher_drop_safety (p : WebhookPayload) (m : List BoardRow)
    (h : noMappedOwner p m) :
    (trello_webhook_event p m).httpStatus = 200 ∧
    (trello_webhook_event p m).tasks = [] := by
  cases hb : truthy (payloadBoardId p)
  · simp [trello_webhook_event, hb]
  · rename_i bid
    simp [trello_webhook_event, hb, h bid hb]

/-- Witness for C6: an event for board "b9" against a Mapping Store that
only maps board "b1". -/
theorem dispatcher_drop_safety_witness :
    noMappedOwner
      (WebhookPayload.mk (some (ActionObj.mk (some "updateCard")
        (some (BoardRef.mk (some "b9") (some "Other"))) none none)))
      [BoardRow.mk "b1" "u1" "Sprint" none] ∧
    ((trello_webhook_event
        (WebhookPayload.mk (some (ActionObj.mk (some "updateCard")
          (some (BoardRef.mk (some "b9") (some "Other"))) none none)))
        [BoardRow.mk "b1" "u1" "Sprint" none]).httpStatus = 200 ∧
      (trello_webhook_event
        (WebhookPayload.mk (some (ActionObj.mk (some "updateCard")
          (some (BoardRef.mk (some "b9") (some "Other"))) none none)))
        [BoardRow.mk "b1" "u1" "Sprint" none]).tasks = []) :=
  ⟨by intro bid hb; cases hb; rfl,
    dispatcher_drop_safety
      (WebhookPayload.mk (some (ActionObj.mk (some "updateCard")
        (some (BoardRef.mk (some "b9") (some "Other"))) none none)))
      [BoardRow.mk "b1" "u1" "Sprint" none]
      (by intro bid hb; cases hb; rfl)⟩

inductive Method
  | get | post | head
deriving DecidableEq, Repr, BEq

/-- Handlers of the routes that app/main.py registers, named by defining
module. -/
inductive HandlerId
  | fakePmHead | fakePmPost | fakeNotifications
  | trelloRegisterWebhook | trelloPmHead | trelloPmPost | trelloNotifications
  | mainPmHead | mainPmGet | mainPmPost
  | trelloConnect | trelloCallback | trelloSaveToken | trelloBoardsWithHeadings
  | workflowRun | workflowGenerated
deriving DecidableEq, Repr, BEq

/-- Route table of the application in registration order, per app/main.py:
the fake_webhook router is included first (line 59), the trello router with
path root /trello later (line 64), and the routes decorated on app itself
(lines 78-342) after the include calls, because the module body runs top to
bottom.  The auth, user, templates and generated_docs routers are mounted
under the path roots /auth, /api, /templates and /generated_docs, so none of
their routes can match /pm and they are left out of the table.  Path
placeholders are written :name. -/
def routeTable : List (Method × String × HandlerId) :=
  [ (Method.head, "/pm", HandlerId.fakePmHead),
    (Method.post, "/pm", HandlerId.fakePmPost),
    (Method.get, "/notifications/:user_id", HandlerId.fakeNotifications),
    (Method.post, "/trello/webhook/register", HandlerId.trelloRegisterWebhook),
    (Method.head, "/trello/pm", HandlerId.trelloPmHead),
    (Method.post, "/trello/pm", HandlerId.trelloPmPost),
    (Method.get, "/trello/notifications/:user_id", HandlerId.trelloNotifications),
    (Method.head, "/pm", HandlerId.mainPmHead),
    (Method.get, "/pm", HandlerId.mainPmGet),
    (Method.post, "/pm", HandlerId.mainPmPost),
    (Method.get, "/trello/connect", HandlerId.trelloConnect),
    (Method.get, "/trello/callback", HandlerId.trelloCallback),
    (Method.post, "/trello/save_token", HandlerId.trelloSaveToken),
    (Method.get, "/trello/boards_with_headings", HandlerId.trelloBoardsWithHeadings),
    (Method.post, "/workflow/run", HandlerId.workflowRun),
    (Method.get, "/workflow/generated", HandlerId.workflowGenerated) ]

/-- Starlette dispatch: the first route whose method and path match serves
the request. -/
def dispatch (meth : Method) (path : String) : Option HandlerId :=
  (findFirst (fun e => e.1 == meth && e.2.1 == path) routeTable).map (fun e => e.2.2)

/-- POST /pm handler of app/routes/fake_webhook.py lines 60-76: a body that
fails JSON parsing (none) is answered 200 with no background task scheduled;
a parsed body is answered 200 after scheduling the background
process_trello_action task on it.  Either way the HTTP status is 200. -/
def fake_trello_webhook (body : Option WebhookPayload) : Nat × List WebhookPayload :=
  match body with
  | none => (200, [])
  | some p => (200, [p])

/-- C5: every inbound POST to /pm is served by the fake_webhook handler
(first matching route in registration order), whose response status is 200
for every body, parsed or malformed; a malformed body additionally schedules
no background task. -/
theorem webhook_pm_post_always_200 :
    dispatch Method.post "/pm" = some HandlerId.fakePmPost ∧
    (∀ body : Option WebhookPayload, (fake_trello_webhook body).1 = 200) ∧
    (fake_trello_webhook none).2 = [] := by
  refine ⟨rfl, ?_, rfl⟩
  intro body
  cases body <;> rfl

/-- Rows of the Mapping Store the notification path resolves for the board
id found in a payload: app/routes/trello_webhook.py lines 125-128.  A Mongo
find with filter board_id = None matches no stored row (every row carries a
string board_id), which the none case models. -/
def get_user_boards_for_board (bid : Option String) (m : List BoardRow) : List BoardRow :=
  match bid with
  | none => []
  | some b => m.filter (keyIs b)

/-- One notification record as inserted by process_trello_action
(app/routes/trello_webhook.py lines 86-95); changes_user is the
changes.user field, ts stands for datetime.utcnow(). -/
structure Notification where
  user_id : String
  board_id : Option String
  board_name : Option String
  event_type : String
  card_name : Option String
  changes_user : Option String
  timestamp : Nat
deriving DecidableEq, Repr

def mkNotification (a : ActionObj) (ts : Nat) (uid : String) : Notification :=
  ⟨uid, actionBoardId a, actionBoardName a, a.type.getD "unknown", actionCardName a,
    a.memberName, ts⟩

/-- Background notification path for POST /trello/pm,
app/routes/trello_webhook.py lines 57-95: with no action object nothing is
written; otherwise one notification row is inserted per Mapping Store row
whose board_id equals the board id of the event.  Returns the notifications
collection after the inserts. -/
def process_trello_action (p : WebhookPayload) (m : List BoardRow)
    (notifs : List Notification) (ts : Nat) : List Notification :=
  match p.action with
  | none => notifs
  | some a =>
    notifs ++ (get_user_boards_for_board (actionBoardId a) m).map
      (fun r => mkNotification a ts r.user_id)

/-- C7: for a processed event naming board B, the notification dispatcher
resolves every Mapping Store row for B and inserts exactly one notification
record per mapped owner, rather than assuming one owner per board. -/
theorem dispatcher_notifies_all_mapped_owners (p : WebhookPayload) (a : ActionObj)
    (B : String) (m : List BoardRow) (notifs : List Notification) (ts : Nat)
    (ha : p.action = some a) (hB : actionBoardId a = some B) :
    process_trello_action p m notifs ts =
      notifs ++ (rowsFor B m).map (fun r => mkNotification a ts r.user_id) ∧
    (process_trello_action p m notifs ts).length = notifs.length + (rowsFor B m).length ∧
    (∀ r ∈ m, r.board_id = B →
      mkNotification a ts r.user_id ∈ process_trello_action p m notifs ts) := by
  have heq : process_trello_action p m notifs ts =
      notifs ++ (rowsFor B m).map (fun r => mkNotification a ts r.user_id) := by
    simp [process_trello_action, ha, get_user_boards_for_board, hB, rowsFor]
  refine ⟨heq, ?_, ?_⟩
  · rw [heq]
    simp [List.length_append]
  · intro r hr hrB
    rw [heq]
    refine List.mem_append_right _ (List.mem_map.2 ⟨r, ?_, rfl⟩)
    exact List.mem_filter.2 ⟨hr, (keyIs_iff B r).2 hrB⟩

/-- Witness for C7: a board mapped to two owners; the event inserts one
notification for each. -/
theorem dispatcher_notifies_all_witness :
    (WebhookPayload.mk (some (ActionObj.mk (some "createCard")
        (some (BoardRef.mk (some "b1") (some "Sprint")))
        (some (CardRef.mk (some "Card"))) (some "Alice")))).action =
      some (ActionObj.mk (some "createCard")
        (some (BoardRef.mk (some "b1") (some "Sprint")))
        (some (CardRef.mk (some "Card"))) (some "Alice")) ∧
    actionBoardId (ActionObj.mk (some "createCard")
        (some (BoardRef.mk (some "b1") (some "Sprint")))
        (some (CardRef.mk (some "Card"))) (some "Alice")) = some "b1" ∧
    (process_trello_action
        (WebhookPayload.mk (some (ActionObj.mk (some "createCard")
          (some (BoardRef.mk (some "b1") (some "Sprint")))
          (some (CardRef.mk (some "Card"))) (some "Alice"))))
        [BoardRow.mk "b1" "u1" "Sprint" none, BoardRow.mk "b1" "u2" "Sprint" none]
        [] 7 =
      [] ++ (rowsFor "b1"
          [BoardRow.mk "b1" "u1" "Sprint" none, BoardRow.mk "b1" "u2" "Sprint" none]).map
        (fun r => mkNotification (ActionObj.mk (some "createCard")
          (some (BoardRef.mk (some "b1") (some "Sprint")))
          (some (CardRef.mk (some "Card"))) (some "Alice")) 7 r.user_id) ∧
      (process_trello_action
        (WebhookPayload.mk (some (ActionObj.mk (some "createCard")
          (some (BoardRef.mk (some "b1") (some "Sprint")))
          (some (CardRef.mk (some "Card"))) (some "Alice"))))
        [BoardRow.mk "b1" "u1" "Sprint" none, BoardRow.mk "b1" "u2" "Sprint" none]
        [] 7).length =
      ([] : List Notification).length + (rowsFor "b1"
        [BoardRow.mk "b1" "u1" "Sprint" none, BoardRow.mk "b1" "u2" "Sprint" none]).length ∧
      (∀ r ∈ [BoardRow.mk "b1" "u1" "Sprint" none, BoardRow.mk "b1" "u2" "Sprint" none],
        r.board_id = "b1" →
        mkNotification (ActionObj.mk (some "createCard")
          (some (BoardRef.mk (some "b1") (some "Sprint")))
          (some (CardRef.mk (some "Card"))) (some "Alice")) 7 r.user_id ∈
          process_trello_action
            (WebhookPayload.mk (some (ActionObj.mk (some "createCard")
              (some (BoardRef.mk (some "b1") (some "Sprint")))
              (some (CardRef.mk (some "Card"))) (some "Alice"))))
            [BoardRow.mk "b1" "u1" "Sprint" none, BoardRow.mk "b1" "u2" "Sprint" none]
            [] 7)) :=
  ⟨rfl, rfl,
    dispatcher_notifies_all_mapped_owners
      (WebhookPayload.mk (some (ActionObj.mk (some "createCard")
        (some (BoardRef.mk (some "b1") (some "Sprint")))
        (some (CardRef.mk (some "Card"))) (some "Alice"))))
      (ActionObj.mk (some "createCard")
        (some (BoardRef.mk (some "b1") (some "Sprint")))
        (some (CardRef.mk (some "Card"))) (some "Alice"))
      "b1"
      [BoardRow.mk "b1" "u1" "Sprint" none, BoardRow.mk "b1" "u2" "Sprint" none]
      [] 7 rfl rfl⟩

/-- Newest-first order used by the notification read: Mongo
sort("timestamp", -1). -/
def notifDesc (a b : Notification) : Prop := b.timestamp ≤ a.timestamp

instance : DecidableRel notifDesc := fun a b => Nat.decLe b.timestamp a.timestamp

instance : IsTotal Notification notifDesc := ⟨fun a b => Nat.le_total b.timestamp a.timestamp⟩

instance : IsTrans Notification notifDesc := ⟨fun _ _ _ hab hbc => Nat.le_trans hbc hab⟩

/-- GET /trello/notifications/:user_id, app/routes/trello_webhook.py lines
115-119: filter the notifications of the user, sort newest first, return at
most 100 (to_list(100)). -/
def get_notifications (store : List Notification) (uid : String) : List Notification :=
  (List.insertionSort notifDesc (store.filter (fun n => n.user_id == uid))).take 100

/-- C10: the notification read returns at most the 100 newest records of the
requested owner: every returned record belongs to the owner, the result is
sorted newest first and holds at most 100 records, and any matching record y
that is not returned implies the result is exactly 100 records, every one at
least as recent as y. -/
theorem notifications_capped_newest_first (store : List Notification) (uid : String)
    (y : Notification) (hy : y ∈ store.filter (fun n => n.user_id == uid))
    (hny : y ∉ get_notifications store uid) :
    (get_notifications store uid).length ≤ 100 ∧
    (∀ x ∈ get_notifications store uid, x.user_id = uid) ∧
    List.Sorted notifDesc (get_notifications store uid) ∧
    (get_notifications store uid).length = 100 ∧
    (∀ x ∈ get_notifications store uid, y.timestamp ≤ x.timestamp) := by
  have hsorted : List.Sorted notifDesc
      (List.insertionSort notifDesc (store.filter (fun n => n.user_id == uid))) :=
    List.sorted_insertionSort notifDesc (store.filter (fun n => n.user_id == uid))
  have hperm := List.perm_insertionSort notifDesc (store.filter (fun n => n.user_id == uid))
  have hyS : y ∈ List.insertionSort notifDesc (store.filter (fun n => n.user_id == uid)) :=
    hperm.mem_iff.2 hy
  have hydrop : y ∈ (List.insertionSort notifDesc
      (store.filter (fun n => n.user_id == uid))).drop 100 := by
    have hsplit := List.take_append_drop 100
      (List.insertionSort notifDesc (store.filter (fun n => n.user_id == uid)))
    rw [← hsplit] at hyS
    rcases List.mem_append.1 hyS with h1 | h2
    · exact absurd h1 hny
    · exact h2
  have hlong : 100 < (List.insertionSort notifDesc
      (store.filter (fun n => n.user_id == uid))).length := by
    have hpos : 0 < ((List.insertionSort notifDesc
        (store.filter (fun n => n.user_id == uid))).drop 100).length :=
      List.length_pos.2 (List.ne_nil_of_mem hydrop)
    rw [List.length_drop] at hpos
    omega
  refine ⟨?_, ?_, ?_, ?_, ?_⟩
  · rw [get_notifications, List.length_take]
    exact Nat.min_le_left 100 _
  · intro x hx
    have hxS := List.mem_of_mem_take hx
    have hxF := hperm.mem_iff.1 hxS
    have := (List.mem_filter.1 hxF).2
    simpa using this
  · exact List.Pairwise.sublist (List.take_sublist 100 _) hsorted
  · rw [get_notifications, List.length_take]
    omega
  · intro x hx
    exact hsorted.rel_of_mem_take_of_mem_drop hx hydrop

/-- Concrete notification store with 101 rows of one owner, timestamps 100
down to 0 in insertion order. -/
def notifStore : List Notification :=
  (List.range 101).map (fun i => Notification.mk "u1" none none "e" none none (100 - i))

/-- Witness for C10 at the concrete 101-row store: the oldest record is
dropped, the 100 returned ones are all at least as recent. -/
theorem notifications_capped_witness :
    Notification.mk "u1" none none "e" none none 0 ∈
      notifStore.filter (fun n => n.user_id == "u1") ∧
    Notification.mk "u1" none none "e" none none 0 ∉ get_notifications notifStore "u1" ∧
    ((get_notifications notifStore "u1").length ≤ 100 ∧
      (∀ x ∈ get_notifications notifStore "u1", x.user_id = "u1") ∧
      List.Sorted notifDesc (get_notifications notifStore "u1") ∧
      (get_notifications notifStore "u1").length = 100 ∧
      (∀ x ∈ get_notifications notifStore "u1",
        (Notification.mk "u1" none none "e" none none 0).timestamp ≤ x.timestamp)) :=
  ⟨by decide, by decide,
    notifications_capped_newest_first notifStore "u1"
      (Notification.mk "u1" none none "e" none none 0) (by decide) (by decide)⟩

/-- One diagram value stored in a generated_docs row: its text and the
optional binary image, stored as the raw base64 string. -/
structure Diagram where
  diagram_text : String
  image : Option String
deriving DecidableEq, Repr

/-- Row of the generated_docs collection (the Document Cache). -/
structure GeneratedDoc where
  user_id : String
  project_id : String
  template_name : String
  generated_docs : String
  generated_diagrams : List (String × Diagram)
  board_name : Option String
deriving DecidableEq, Repr

/-- Mongo find_one on the compound key of app/main.py lines 336-340. -/
def findDoc (store : List GeneratedDoc) (uid pid t : String) : Option GeneratedDoc :=
  findFirst (fun d => d.user_id == uid && d.project_id == pid && d.template_name == t) store

/-- Presentation transform of app/main.py lines 346-348: a diagram with an
image has it re-encoded as a data URI at read time. -/
def encodeImage (d : Diagram) : Diagram :=
  { d with image := d.image.map (fun s => "data:image/png;base64," ++ s) }

/-- board_name or "Unknown Board" fallback of app/main.py line 344 (Python
or: None and the empty string both fall back). -/
def orUnknownBoard (s : Option String) : String :=
  match s with
  | none => "Unknown Board"
  | some s => if s = "" then "Unknown Board" else s

/-- Response of the generated-document read endpoint. -/
structure DocResponse where
  status : String
  template_name : String
  generated_docs : String
  generated_diagrams : List (String × Diagram)
  board_name : String
deriving DecidableEq, Repr

/-- Response built from a cache hit, app/main.py lines 344-356. -/
def hitResponse (t : String) (doc : GeneratedDoc) : DocResponse :=
  ⟨"success", t, doc.generated_docs,
    doc.generated_diagrams.map (fun x => (x.1, encodeImage x.2)),
    orUnknownBoard doc.board_name⟩

/-- GET /workflow/generated, app/main.py lines 332-356: look the compound
key up in generated_docs; on a hit answer with the stored document, the
diagrams with images re-encoded as data URIs, and the stored board name,
leaving the collection untouched; on a miss hand over to execute_workflow
(app/services/workflow_service.py, not among the source files), passed here
as the opaque collaborator wf, which generates and persists per spec
section 4.5 step 2. -/
def get_generated_doc
    (wf : String → String → String → List GeneratedDoc → DocResponse × List GeneratedDoc)
    (store : List GeneratedDoc) (uid pid t : String) : DocResponse × List GeneratedDoc :=
  match findDoc store uid pid t with
  | some doc => (hitResponse t doc, store)
  | none => wf uid pid t store

/-- C8: on a Document Cache hit the read endpoint answers from the stored
artifact with every raw image re-encoded as a data:image/png;base64 URI at
read time, and leaves the stored artifact unchanged: the collection after
the read equals the collection before it, and the response carries the
stored document text, the stored board name (with fallback) and the stored
diagrams, each present image prefixed, nothing written back. -/
theorem doc_read_hit_pure_data_uri
    (wf : String → String → String → List GeneratedDoc → DocResponse × List GeneratedDoc)
    (store : List GeneratedDoc) (uid pid t : String) (doc : GeneratedDoc)
    (h : findDoc store uid pid t = some doc) :
    (get_generated_doc wf store uid pid t).2 = store ∧
    (get_generated_doc wf store uid pid t).1.generated_docs = doc.generated_docs ∧
    (get_generated_doc wf store uid pid t).1.board_name = orUnknownBoard doc.board_name ∧
    (get_generated_doc wf store uid pid t).1.generated_diagrams =
      doc.generated_diagrams.map (fun x => (x.1, encodeImage x.2)) ∧
    (∀ hd d img, (hd, d) ∈ doc.generated_diagrams → d.image = some img →
      (hd, Diagram.mk d.diagram_text (some ("data:image/png;base64," ++ img))) ∈
        (get_generated_doc wf store uid pid t).1.generated_diagrams) := by
  have hval : get_generated_doc wf store uid pid t = (hitResponse t doc, store) := by
    unfold get_generated_doc
    rw [h]
  rw [hval]
  refine ⟨rfl, rfl, rfl, rfl, ?_⟩
  intro hd d img hmem himg
  show (hd, Diagram.mk d.diagram_text (some ("data:image/png;base64," ++ img))) ∈
    (hitResponse t doc).generated_diagrams
  unfold hitResponse
  refine List.mem_map.2 ⟨(hd, d), hmem, ?_⟩
  simp [encodeImage, himg]

/-- Witness for C8 at a one-row cache holding one diagram with an image. -/
theorem doc_read_hit_witness :
    findDoc [GeneratedDoc.mk "u1" "b1" "default" "## Intro" [("Flow", Diagram.mk "graph" (some "abc"))] (some "Sprint")]
        "u1" "b1" "default" =
      some (GeneratedDoc.mk "u1" "b1" "default" "## Intro" [("Flow", Diagram.mk "graph" (some "abc"))] (some "Sprint")) ∧
    ((get_generated_doc (fun _ _ _ store => (DocResponse.mk "error" "" "" [] "", store))
        [GeneratedDoc.mk "u1" "b1" "default" "## Intro" [("Flow", Diagram.mk "graph" (some "abc"))] (some "Sprint")]
        "u1" "b1" "default").2 =
      [GeneratedDoc.mk "u1" "b1" "default" "## Intro" [("Flow", Diagram.mk "graph" (some "abc"))] (some "Sprint")] ∧
    (get_generated_doc (fun _ _ _ store => (DocResponse.mk "error" "" "" [] "", store))
        [GeneratedDoc.mk "u1" "b1" "default" "## Intro" [("Flow", Diagram.mk "graph" (some "abc"))] (some "Sprint")]
        "u1" "b1" "default").1.generated_docs = "## Intro" ∧
    (get_generated_doc (fun _ _ _ store => (DocResponse.mk "error" "" "" [] "", store))
        [GeneratedDoc.mk "u1" "b1" "default" "## Intro" [("Flow", Diagram.mk "graph" (some "abc"))] (some "Sprint")]
        "u1" "b1" "default").1.board_name = orUnknownBoard (some "Sprint") ∧
    (get_generated_doc (fun _ _ _ store => (DocResponse.mk "error" "" "" [] "", store))
        [GeneratedDoc.mk "u1" "b1" "default" "## Intro" [("Flow", Diagram.mk "graph" (some "abc"))] (some "Sprint")]
        "u1" "b1" "default").1.generated_diagrams =
      [("Flow", Diagram.mk "graph" (some "abc"))].map (fun x => (x.1, encodeImage x.2)) ∧
    (∀ hd d img, (hd, d) ∈ [("Flow", Diagram.mk "graph" (some "abc"))] → d.image = some img →
      (hd, Diagram.mk d.diagram_text (some ("data:image/png;base64," ++ img))) ∈
        (get_generated_doc (fun _ _ _ store => (DocResponse.mk "error" "" "" [] "", store))
          [GeneratedDoc.mk "u1" "b1" "default" "## Intro" [("Flow", Diagram.mk "graph" (some "abc"))] (some "Sprint")]
          "u1" "b1" "default").1.generated_diagrams)) :=
  ⟨rfl,
    doc_read_hit_pure_data_uri (fun _ _ _ store => (DocResponse.mk "error" "" "" [] "", store))
      [GeneratedDoc.mk "u1" "b1" "default" "## Intro" [("Flow", Diagram.mk "graph" (some "abc"))] (some "Sprint")]
      "u1" "b1" "default"
      (GeneratedDoc.mk "u1" "b1" "default" "## Intro" [("Flow", Diagram.mk "graph" (some "abc"))] (some "Sprint"))
      rfl⟩

/-- Row of the tokens collection (the Token Store). -/
structure TokenRow where
  user_id : String
  trello_token : String
deriving DecidableEq, Repr

/-- save_user_token, app/models/user_token_model.py lines 10-15: Mongo
update_one({user_id}, $set trello_token, upsert=True). -/
def save_user_token (uid tok : String) (tokens : List TokenRow) : List TokenRow :=
  upsertBy (fun r => r.user_id == uid) (fun r => { r with trello_token := tok })
    ⟨uid, tok⟩ tokens

/-- get_user_token, app/models/user_token_model.py lines 18-20. -/
def get_user_token (uid : String) (tokens : List TokenRow) : Option String :=
  (findFirst (fun r => r.user_id == uid) tokens).map (fun r => r.trello_token)

/-- Structured response of the save-token endpoint. -/
structure SaveTokenResponse where
  status : String
  message : String
deriving DecidableEq, Repr

/-- POST /trello/save_token, app/main.py lines 210-270: validate the
payload, persist the credential with save_user_token, then fetch the
boards of the user from the provider (boardsFetch, none modelling a fetch
failure) and upsert each into the Mapping Store.  The board-fetch failure
branch answers a structured error after the credential write is already
durable.  The Mongo writes themselves are modelled as succeeding. -/
def trello_save_token (payload_user payload_token : Option String)
    (boardsFetch : Option (List (String × String × String)))
    (tokens : List TokenRow) (m : List BoardRow) :
    SaveTokenResponse × List TokenRow × List BoardRow :=
  match truthy payload_user, truthy payload_token with
  | none, _ => (⟨"error", "user_id and trello_token are required"⟩, tokens, m)
  | some _, none => (⟨"error", "user_id and trello_token are required"⟩, tokens, m)
  | some uid, some tok =>
    match boardsFetch with
    | none => (⟨"error", "Failed to fetch boards"⟩, save_user_token uid tok tokens, m)
    | some boards =>
      (⟨"success", "Trello token saved and " ++ toString boards.length ++
          " boards mapped to user " ++ uid⟩,
        save_user_token uid tok tokens,
        boards.foldl (fun acc b => upsertBoardSave acc b.1 uid b.2.1 b.2.2) m)

theorem findFirst_eq_none_any {α : Type} (p : α → Bool) :
    ∀ l : List α, l.any p = false → findFirst p l = none := by
  intro l
  induction l with
  | nil => intro _; rfl
  | cons x xs ih =>
    intro h
    have hx : p x = false := by
      cases hc : p x
      · rfl
      · rw [List.any_cons, hc] at h; simp at h
    have hxs : xs.any p = false := by
      rw [List.any_cons, hx] at h; simpa using h
    simp [findFirst, hx, ih hxs]

theorem get_user_token_updFirst (uid tok : String) :
    ∀ tokens : List TokenRow, tokens.any (fun r => r.user_id == uid) = true →
      get_user_token uid
        (updFirstBy (fun r => r.user_id == uid)
          (fun r => { r with trello_token := tok }) tokens) = some tok := by
  intro tokens
  induction tokens with
  | nil => intro h; simp at h
  | cons r rs ih =>
    intro h
    by_cases hr : (r.user_id == uid) = true
    · simp [get_user_token, updFirstBy, hr, findFirst]
    · have hrf : (r.user_id == uid) = false := by simpa using hr
      have hrs : rs.any (fun r => r.user_id == uid) = true := by
        simpa [List.any_cons, hrf] using h
      simp only [updFirstBy, hrf, Bool.false_eq_true, ite_false]
      simp only [get_user_token, findFirst, hrf, Bool.false_eq_true, ite_false]
      simpa [get_user_token] using ih hrs

theorem get_user_token_after_save (uid tok : String) (tokens : List TokenRow) :
    get_user_token uid (save_user_token uid tok tokens) = some tok := by
  unfold save_user_token upsertBy
  by_cases h : tokens.any (fun r => r.user_id == uid)
  · simp only [h, ite_true]
    exact get_user_token_updFirst uid tok tokens h
  · simp only [h, Bool.false_eq_true, ite_false]
    unfold get_user_token
    rw [findFirst_append, findFirst_eq_none_any _ tokens (by simpa using h)]
    simp [findFirst]

/-- C9: the token registration endpoint is not atomic on failure.  With a
truthy user id and token, when the board fetch from the provider fails the
endpoint answers the structured error (status error, message Failed to
fetch boards), yet the credential upsert has already persisted: the Token
Store equals the upserted store and resolves the user to the new token,
while the Mapping Store is untouched. -/
theorem save_token_error_after_persist (u tk : String) (tokens : List TokenRow)
    (m : List BoardRow) (hu : u ≠ "") (ht : tk ≠ "") :
    (trello_save_token (some u) (some tk) none tokens m).1 =
      ⟨"error", "Failed to fetch boards"⟩ ∧
    (trello_save_token (some u) (some tk) none tokens m).2.1 = save_user_token u tk tokens ∧
    get_user_token u (trello_save_token (some u) (some tk) none tokens m).2.1 = some tk ∧
    (trello_save_token (some u) (some tk) none tokens m).2.2 = m := by
  have hval : trello_save_token (some u) (some tk) none tokens m =
      (⟨"error", "Failed to fetch boards"⟩, save_user_token u tk tokens, m) := by
    unfold trello_save_token
    simp [truthy, hu, ht]
  rw [hval]
  exact ⟨rfl, rfl, get_user_token_after_save u tk tokens, rfl⟩

/-- Witness for C9 at the empty stores: the error response is produced,
yet the token row for u1 is durable. -/
theorem save_token_error_witness :
    ("u1" : String) ≠ "" ∧ ("tok1" : String) ≠ "" ∧
    ((trello_save_token (some "u1") (some "tok1") none [] []).1 =
      SaveTokenResponse.mk "error" "Failed to fetch boards" ∧
    (trello_save_token (some "u1") (some "tok1") none [] []).2.1 =
      save_user_token "u1" "tok1" [] ∧
    get_user_token "u1" (trello_save_token (some "u1") (some "tok1") none [] []).2.1 =
      some "tok1" ∧
    (trello_save_token (some "u1") (some "tok1") none [] []).2.2 = []) :=
  ⟨by decide, by decide,
    save_token_error_after_persist "u1" "tok1" [] [] (by decide) (by decide)⟩

/-- Per-key view of the generated-document read path under the asyncio event
loop, for one fixed compound key with no cached artifact.  Each pending
request is in one phase: atLookup (about to await the find_one of
app/main.py line 336), toGenerate (observed a miss, about to await
execute_workflow, app/main.py line 342), toReturn (observed a hit, about to
answer from the cache), or done.  Requests for one key are interchangeable,
so the state tracks how many sit in each phase, whether the artifact is
cached, and how many times execute_workflow has been invoked.  The handler
holds no lock between its lookup and its generation call, so every
interleaving of these steps is a possible schedule; the webhook path of
app/main.py line 108 feeds the same unguarded pattern via
asyncio.create_task. -/
structure CacheRace where
  cacheFilled : Bool
  atLookup : Nat
  toGenerate : Nat
  toReturn : Nat
  done : Nat
  invocations : Nat
deriving DecidableEq, Repr

/-- One cooperative step of the event loop: run the next awaited operation
of some request in the named phase (no-op when no request is there). -/
inductive CacheStep
  | lookupStep | generateStep | respondStep
deriving DecidableEq, Repr

/-- Semantics of one step.  lookupStep: the find_one of one atLookup request
completes; a filled cache sends it to toReturn, a miss sends it to
toGenerate (the code re-checks nothing afterwards).  generateStep: one
toGenerate request awaits execute_workflow, which is modelled from the
spec (app/services/workflow_service.py is not among the source files):
per spec section 4.5 step 2 it generates and persists the artifact under
the key, so the invocation count rises and the cache fills.  respondStep:
one toReturn request answers from the cache. -/
def raceStep (s : CacheRace) : CacheStep → CacheRace
  | CacheStep.lookupStep =>
    if s.atLookup = 0 then s
    else if s.cacheFilled then
      { s with atLookup := s.atLookup - 1, toReturn := s.toReturn + 1 }
    else
      { s with atLookup := s.atLookup - 1, toGenerate := s.toGenerate + 1 }
  | CacheStep.generateStep =>
    if s.toGenerate = 0 then s
    else
      { s with toGenerate := s.toGenerate - 1, done := s.done + 1,
               cacheFilled := true, invocations := s.invocations + 1 }
  | CacheStep.respondStep =>
    if s.toReturn = 0 then s
    else { s with toReturn := s.toReturn - 1, done := s.done + 1 }

def raceRun (s : CacheRace) (sched : List CacheStep) : CacheRace :=
  sched.foldl raceStep s

/-- n concurrent requests for the key, nothing cached yet. -/
def raceInit (n : Nat) : CacheRace := CacheRace.mk false n 0 0 0 0

/-- The racing schedule: every lookup completes before any generation runs. -/
def raceSchedule (n : Nat) : List CacheStep :=
  List.replicate n CacheStep.lookupStep ++ List.replicate n CacheStep.generateStep

/-- The serialized schedule: the first request finishes before the second
starts. -/
def serialSchedule : List CacheStep :=
  [CacheStep.lookupStep, CacheStep.generateStep,
   CacheStep.lookupStep, CacheStep.respondStep]

/-- C1: two concurrent reads of the same absent compound key invoke the
Generation Collaborator twice under the schedule in which both lookups
complete before either generation persists, against the claimed exactly
once; under the serialized schedule the same two requests invoke it once.
The unguarded find_one-then-execute_workflow of app/main.py lines 332-342
closes no such schedule out. -/
theorem cache_read_race_two_invocations :
    (raceRun (raceInit 2) (raceSchedule 2)).invocations = 2 ∧
    (raceRun (raceInit 2) serialSchedule).invocations = 1 ∧
    (raceRun (raceInit 2) serialSchedule).cacheFilled = true := by decide
